import Mathlib

/-
Formal model of the run-data cache subsystem of p-board
(src/p_board/backend.py).  The Python source is shallowly embedded:
pandas DataFrames become lists of records, Python dicts become
association lists (membership being the meaningful relation, since the
original dict/set orders are either insertion order or unspecified),
float64 cells become an explicit four-way value type (NaN, +inf, -inf,
or a finite rational), exceptions become Except, and the filesystem
seen by the single-run correlator becomes an explicit directory tree
value.  Each definition carries a comment pointing to the lines of
backend.py it translates.
-/

namespace PBoard

/-- Decidable equality for Except values, so that concrete runs of the
fallible pipeline can be checked by evaluation. -/
instance {ε α : Type} [DecidableEq ε] [DecidableEq α] :
    DecidableEq (Except ε α) := fun a b =>
  match a, b with
  | .error x, .error y =>
      if h : x = y then isTrue (congrArg Except.error h)
      else isFalse (fun hh => h (Except.error.inj hh))
  | .ok x, .ok y =>
      if h : x = y then isTrue (congrArg Except.ok h)
      else isFalse (fun hh => h (Except.ok.inj hh))
  | .error _, .ok _ => isFalse (fun hh => Except.noConfusion hh)
  | .ok _, .error _ => isFalse (fun hh => Except.noConfusion hh)

/-! ## String utilities -/

/-- Splitting a character list at a separator, mirroring Python
`str.split` / `pathlib.Path.parts` segmentation on the path separator.
`splitChar sep` never returns an empty list. -/
def splitChar (sep : Char) : List Char → List (List Char)
  | [] => [[]]
  | c :: rest =>
    let r := splitChar sep rest
    if c == sep then [] :: r
    else
      match r with
      | [] => [[c]]
      | h :: t => (c :: h) :: t

/-- First path segment of a directory name: `Path(d).parts[0]` at
backend.py line 328 (for a relative path such as `run_a/ts`). -/
def firstSegment (s : String) : String :=
  ⟨(splitChar '/' s.data).headD s.data⟩

/-- Splitting a string on a separator character, used for
`selected_runs_str.split(",")` at backend.py line 646. -/
def strSplitOn (s : String) (sep : Char) : List String :=
  (splitChar sep s.data).map (fun l => ⟨l⟩)

/-- Whether `needle` starts `hay` (character lists). -/
def charsStartWith : List Char → List Char → Bool
  | [], _ => true
  | _ :: _, [] => false
  | a :: as, b :: bs => a == b && charsStartWith as bs

/-- Whether `needle` occurs contiguously inside `hay`. -/
def charsContain (needle : List Char) : List Char → Bool
  | [] => needle.isEmpty
  | c :: rest => charsStartWith needle (c :: rest) || charsContain needle rest

/-- Python `search_term in content` substring test (backend.py line 242). -/
def strContains (haystack needle : String) : Bool :=
  charsContain needle.data haystack.data

/-- Python truthiness of an optional string: `None` and `""` are falsy.
Used for `if overrides_content:` at backend.py lines 462 and 478 and for
`bool(run_entry.get('hydra_overrides'))` at line 556. -/
def truthy : Option String → Bool
  | none => false
  | some s => !(s == "")

/-! ## Data model

Raw records as produced by the tbparse `SummaryReader` (backend.py
lines 303 to 310), one list element per DataFrame row. -/

/-- One float64 cell after `pd.to_numeric(errors='coerce')`: a failed
coercion yields NaN, so NaN also covers unparseable input. -/
inductive FVal where
  | nan
  | inf
  | ninf
  | fin (q : ℚ)
deriving DecidableEq

/-- Is this cell NaN (pandas `isna`)? -/
def isNan : FVal → Bool
  | .nan => true
  | _ => false

/-- Is this cell positive or negative infinity? -/
def isInfinite : FVal → Bool
  | .inf => true
  | .ninf => true
  | _ => false

/-- One row of `reader.scalars`: columns dir_name, tag, step, value,
wall_time (backend.py line 361). -/
structure ScalarRow where
  dirName : String
  tag : String
  step : FVal
  value : FVal
  wallTime : FVal
deriving DecidableEq

/-- One row of `reader.hparams`: dir_name, tag, value, wall_time
(backend.py lines 320 to 330 and 429 to 434).  The tag can be missing
(`row.get('tag')` returning None); hyperparameter values are kept
opaque as strings since the builder never inspects them. -/
structure HparamRow where
  dirName : String
  tag : Option String
  value : String
  wallTime : ℚ
deriving DecidableEq

/-- A scalar row after cleaning and the astype casts of backend.py
lines 384 to 386: step is an integer, value a finite float, wall_time a
float that is guaranteed non-NaN but not guaranteed finite. -/
structure CleanRow where
  dirName : String
  tag : String
  step : Int
  value : ℚ
  wallTime : FVal
deriving DecidableEq

/-- One cached series for a tag: the three parallel lists stored at
backend.py lines 399 to 401. -/
structure ScalarSeries where
  steps : List Int
  values : List ℚ
  wallTimes : List FVal
deriving DecidableEq

/-- The `hparams` cache value stored at backend.py lines 445 to 448. -/
structure RunHparams where
  hparamDict : List (String × String)
  metricDict : List (String × String)
deriving DecidableEq

/-- One cache entry per run, set up at backend.py lines 350 to 355. -/
structure RunEntry where
  scalars : List (String × ScalarSeries)
  hydraOverrides : Option String
  hparams : Option RunHparams
deriving DecidableEq

/-- The raw output of one `SummaryReader` read. -/
structure RawInput where
  scalarRows : List ScalarRow
  hparamRows : List HparamRow
deriving DecidableEq

/-- The process configuration seen by the builder: validity of
LOG_ROOT_DIR (line 292), whether HYDRA_MULTIRUN_DIR and
HYDRA_SINGLE_RUN_LOG_DIR are set (lines 333, 457, 468), and the
immediate subdirectory names of the log root (lines 336 to 338). -/
structure Config where
  logRootValid : Bool
  multirunConfigured : Bool
  singleRunConfigured : Bool
  logRootSubdirs : List String

/-! ## Run Cache Builder: candidate run names (backend.py lines 314 to 340) -/

/-- Distinct dir_name values of the scalar rows (line 317). -/
def scalarDirNames (rows : List ScalarRow) : List String :=
  (rows.map (fun r => r.dirName)).dedup

/-- Distinct canonicalized (first path segment) dir_name values of the
hyperparameter rows (lines 325 to 329). -/
def hparamBaseNames (rows : List HparamRow) : List String :=
  (rows.map (fun r => firstSegment r.dirName)).dedup

/-- The candidate run-name set `all_base_run_names` (lines 315 to 340):
the union of scalar dir_names and canonicalized hparam dir_names; if
that union is empty and HYDRA_MULTIRUN_DIR is set (line 333: the
single-run directory is not consulted here), the immediate
subdirectories of the log root are used instead. -/
def candidateNames (input : RawInput) (cfg : Config) : List String :=
  let base := (scalarDirNames input.scalarRows ++ hparamBaseNames input.hparamRows).dedup
  if base.isEmpty && cfg.multirunConfigured then cfg.logRootSubdirs else base

/-! ## Run Cache Builder: scalar cleaning (backend.py lines 370 to 386) -/

/-- Cleaning of the scalar DataFrame: `dropna` on step/value/wall_time
(line 376) removes rows with any NaN among the three numeric columns,
then line 377 removes rows whose value column is +inf or -inf.  The
infinity filter applies only to the value column. -/
def cleanScalarRows (rows : List ScalarRow) : List ScalarRow :=
  (rows.filter
      (fun r => !(isNan r.step || isNan r.value || isNan r.wallTime))).filter
    (fun r => !(r.value == FVal.inf || r.value == FVal.ninf))

/-- Truncation toward zero of a rational, the semantics of pandas
`astype(int)` on a finite float (line 384). -/
def ratTrunc (q : ℚ) : Int :=
  Int.tdiv q.num q.den

/-- The astype casts of lines 384 to 386 on one surviving row.  After
cleaning, step is non-NaN but may still be infinite, in which case
`astype(int)` raises; value is finite; wall_time is non-NaN and is kept
as a float. -/
def castRow (r : ScalarRow) : Option CleanRow :=
  match r.step, r.value with
  | .fin s, .fin v => some ⟨r.dirName, r.tag, ratTrunc s, v, r.wallTime⟩
  | _, _ => none

/-- The astype pass over all surviving rows: if any surviving step is
non-finite, pandas `astype(int)` raises, the exception is caught at
line 506, and the whole refresh fails.  Otherwise every row is cast. -/
def castRows (rows : List ScalarRow) : Except Unit (List CleanRow) :=
  if rows.all (fun r => !(isInfinite r.step)) then
    .ok (rows.filterMap castRow)
  else
    .error ()

/-! ## Run Cache Builder: per-run scalar series (backend.py lines 388 to 404) -/

/-- The rows of one run: `groupby(run_col)` restricted to one key. -/
def rowsForRun (run : String) (rows : List CleanRow) : List CleanRow :=
  rows.filter (fun r => r.dirName == run)

/-- The distinct tags of a run: the keys of `groupby(tag_col)`. -/
def tagsOf (rows : List CleanRow) : List String :=
  (rows.map (fun r => r.tag)).dedup

/-- Sorting one tag group by step ascending: `sort_values(by=step_col)`
at line 397. -/
def sortRowsByStep (rows : List CleanRow) : List CleanRow :=
  List.insertionSort (fun a b => a.step ≤ b.step) rows

/-- One tag group turned into a series: sort by step then the three
column extractions at lines 399 to 401. -/
def seriesForTag (rows : List CleanRow) : ScalarSeries :=
  { steps := (sortRowsByStep rows).map (fun r => r.step)
    values := (sortRowsByStep rows).map (fun r => r.value)
    wallTimes := (sortRowsByStep rows).map (fun r => r.wallTime) }

/-- The `scalars` mapping of one run (lines 390 to 402): group the
run's rows by tag and store each tag group sorted by step. -/
def buildRunScalars (run : String) (rows : List CleanRow) :
    List (String × ScalarSeries) :=
  let runRows := rowsForRun run rows
  (tagsOf runRows).map
    (fun t => (t, seriesForTag (runRows.filter (fun r => r.tag == t))))

/-! ## Run Cache Builder: hyperparameters (backend.py lines 319 to 330 and 416 to 451) -/

/-- The hparam DataFrame sorted ascending by wall_time (line 323). -/
def hparamRowsSorted (rows : List HparamRow) : List HparamRow :=
  List.insertionSort (fun a b => a.wallTime ≤ b.wallTime) rows

/-- The rows collected for one base run in `hparam_base_run_map`
(lines 325 to 330): iteration over the sorted DataFrame appends each
row to its base run's list, so the per-run list is the wall_time-sorted
rows whose canonical name is the run. -/
def hparamRowsFor (run : String) (rows : List HparamRow) : List HparamRow :=
  (hparamRowsSorted rows).filter (fun r => firstSegment r.dirName == run)

/-- Python dict assignment `d[k] = v` on an association list: replace
the value in place if the key exists, else append. -/
def dictInsert {α : Type} (d : List (String × α)) (k : String) (v : α) :
    List (String × α) :=
  if d.any (fun p => p.1 == k) then
    d.map (fun p => if p.1 == k then (p.1, v) else p)
  else
    d ++ [(k, v)]

/-- The hparams stored for one run (lines 419 to 448): every row of the
run (all events, in ascending wall_time order) is written into
`hparam_dict`, a later row overwriting an earlier one with the same
tag; `metric_dict` is always empty.  A run with no hparam rows keeps
its starting `None` (line 354). -/
def buildRunHparams (rows : List HparamRow) : Option RunHparams :=
  if rows.isEmpty then none
  else
    some
      { hparamDict :=
          rows.foldl
            (fun d r =>
              match r.tag with
              | none => d
              | some t => dictInsert d t r.value)
            []
        metricDict := [] }

/-! ## Run Cache Builder: override correlation per run (backend.py lines 455 to 481) -/

/-- The overrides stored for one run.  Step 8.1 (lines 457 to 465)
stores the multirun correlator's result when HYDRA_MULTIRUN_DIR is set
and the result is truthy; step 8.2 (lines 468 to 481) consults the
single-run correlator only when HYDRA_SINGLE_RUN_LOG_DIR is set and no
multirun result was stored, again storing only a truthy result.  The
two correlators are passed in as functions from run name to optional
text, the component boundary of the Metadata Correlator. -/
def runOverrides (cfg : Config) (ovMulti ovSingle : String → Option String)
    (run : String) : Option String :=
  let m := if cfg.multirunConfigured && truthy (ovMulti run) then ovMulti run else none
  match m with
  | some c => some c
  | none =>
      if cfg.singleRunConfigured && truthy (ovSingle run) then ovSingle run else none

/-! ## Run Cache Builder: assembling the snapshot (backend.py lines 349 to 495)

The source fills `temp_cache` in phases (scalars, then hparams, then
overrides) and accumulates `runs_to_keep` alongside; every phase
handles each run independently of the others (the scalar phase only
reads the run's own scalar group, the hparam phase the run's own entry
of `hparam_base_run_map`, the override phase calls the correlators on
the run's own name), and `runs_to_keep` receives a run exactly when the
value just stored in its entry is non-empty.  The embedding therefore
builds each run's entry in one go and expresses the final filter of
lines 483 to 487 as a predicate on the finished entry. -/

/-- One run's finished cache entry. -/
def buildRunEntry (run : String) (rows : List CleanRow)
    (hpRows : List HparamRow) (ov : Option String) : RunEntry :=
  { scalars := buildRunScalars run rows
    hydraOverrides := ov
    hparams := buildRunHparams (hparamRowsFor run hpRows) }

/-- Membership in `runs_to_keep` (lines 409 to 491) in terms of the
finished entry: non-empty scalars (line 413), or a non-empty
hparam_dict (line 449), or a stored override (lines 464 and 480; only
truthy contents are ever stored, so presence suffices). -/
def keepRun (e : RunEntry) : Bool :=
  !e.scalars.isEmpty
    || (match e.hparams with
        | some h => !h.hparamDict.isEmpty
        | none => false)
    || e.hydraOverrides.isSome

/-- The body of the refresh after a successful read (backend.py lines
349 to 495): clean and cast the scalar rows (aborting with an exception
if a cast raises), build every candidate run's entry, and keep only the
runs with data. -/
def buildSnapshot (input : RawInput) (cfg : Config)
    (ovMulti ovSingle : String → Option String) :
    Except Unit (List (String × RunEntry)) :=
  match castRows (cleanScalarRows input.scalarRows) with
  | .error e => .error e
  | .ok rows =>
      .ok
        (((candidateNames input cfg).map
            (fun r =>
              (r, buildRunEntry r rows input.hparamRows
                    (runOverrides cfg ovMulti ovSingle r)))).filter
          (fun p => keepRun p.2))

/-- The whole refresh cycle `preload_all_runs_unified` (backend.py
lines 281 to 509) as a function from the previously published cache to
the cache published afterwards.  An invalid log root returns early
(lines 292 to 296) leaving the previous cache; a raising read is caught
(lines 502 to 509) leaving the previous cache; an empty candidate set
publishes the empty cache (lines 342 to 347, `RUN_DATA_CACHE = {}`); a
later exception (the astype cast) is caught at line 506 leaving the
previous cache; otherwise the new snapshot replaces the cache
atomically (line 495). -/
def preload_all_runs_unified (prev : List (String × RunEntry)) (cfg : Config)
    (src : Except Unit RawInput) (ovMulti ovSingle : String → Option String) :
    List (String × RunEntry) :=
  if !cfg.logRootValid then prev
  else
    match src with
    | .error _ => prev
    | .ok input =>
        if (candidateNames input cfg).isEmpty then []
        else
          match buildSnapshot input cfg ovMulti ovSingle with
          | .error _ => prev
          | .ok snap => snap

/-! ## Metadata Correlator, strategy B (backend.py lines 187 to 278)

The filesystem seen by `find_hydra_overrides_single_run` is modelled as
the date directories of the configured root, each a list of time
(job-output) directories in iteration order; a time directory carries
the contents of its `*.log` files in glob order and the contents of
`.hydra/overrides.yaml` and `.hydra/config.yaml` when those files
exist.  Non-directory entries are skipped by the source (lines 216 and
222) and so are simply not represented; unreadable log files are
skipped (lines 247 to 250) and are likewise not represented. -/

/-- One Hydra job-output (time) directory. -/
structure HydraJobDir where
  logFiles : List String
  overridesYaml : Option String
  configYaml : Option String
deriving DecidableEq

/-- Does some log file of the directory contain the search term
(lines 234 to 246: the files are checked in order and the loop breaks
on the first containing file, which is the same as an existence check)? -/
def logMatches (term : String) (d : HydraJobDir) : Bool :=
  d.logFiles.any (fun c => strContains c term)

/-- The configuration text returned for a matched directory (lines 255
to 272): `overrides.yaml` when it exists, else `config.yaml` when it
exists, else nothing. -/
def hydraConfigChoice (d : HydraJobDir) : Option String :=
  match d.overridesYaml with
  | some o => some o
  | none => d.configYaml

/-- The inner loop over the time directories of one date directory
(lines 221 to 272).  `some r` means the Python function returned `r`
(which may itself be `none`: a log match with neither config file
returns None at line 272 without trying further directories); `none`
means the loop fell through and the next date directory is tried. -/
def searchJobDirs (term : String) : List HydraJobDir → Option (Option String)
  | [] => none
  | d :: rest =>
    if logMatches term d then some (hydraConfigChoice d)
    else searchJobDirs term rest

/-- The outer loop over date directories (lines 215 to 272). -/
def searchDateDirs (term : String) : List (List HydraJobDir) → Option (Option String)
  | [] => none
  | ds :: rest =>
    match searchJobDirs term ds with
    | some r => some r
    | none => searchDateDirs term rest

/-- Function `find_hydra_overrides_single_run` (backend.py lines 187 to 278):
run the nested search; falling through every directory returns None
(line 278). -/
def find_hydra_overrides_single_run (term : String)
    (dates : List (List HydraJobDir)) : Option String :=
  (searchDateDirs term dates).getD none

/-! ## Query Service (backend.py lines 550 to 691) -/

/-- Python dict lookup `c.get(k)` on an association list. -/
def alookup {α : Type} (c : List (String × α)) (k : String) : Option α :=
  match c with
  | [] => none
  | (k', v) :: rest => if k' == k then some v else alookup rest k

/-- Removal of a key, used to compare a cache with and without a run. -/
def eraseKey {α : Type} (c : List (String × α)) (k : String) :
    List (String × α) :=
  c.filter (fun p => !(p.1 == k))

/-- One row of the `/api/runs` and `/api/refresh` responses
(backend.py lines 554 to 558). -/
structure RunInfo where
  name : String
  hasOverrides : Bool
  hasHparams : Bool
deriving DecidableEq

/-- String order for Python `sorted` over run names, compared
character by character on the code points. -/
def strLe : List Char → List Char → Bool
  | [], _ => true
  | _ :: _, [] => false
  | a :: as, b :: bs => if a == b then strLe as bs else a < b

/-- The keys of the cache in sorted order (backend.py line 552). -/
def sortedKeys (cache : List (String × RunEntry)) : List String :=
  List.insertionSort (fun a b => strLe a.data b.data = true)
    (cache.map (fun p => p.1))

/-- Function `_get_runs_info_from_cache` (backend.py lines 550 to 559): one info
row per sorted run name, with `has_overrides` the truthiness of the
stored overrides and `has_hparams` the presence of an hparams value. -/
def get_runs_info_from_cache (cache : List (String × RunEntry)) :
    List RunInfo :=
  (sortedKeys cache).map
    (fun n =>
      match alookup cache n with
      | some e => ⟨n, truthy e.hydraOverrides, e.hparams.isSome⟩
      | none => ⟨n, false, false⟩)

/-- Writing `all_metrics_data[metric][run] = data` into the nested
defaultdict of backend.py line 666. -/
def addMetricEntry (acc : List (String × List (String × ScalarSeries)))
    (metric run : String) (s : ScalarSeries) :
    List (String × List (String × ScalarSeries)) :=
  if acc.any (fun p => p.1 == metric) then
    acc.map (fun p => if p.1 == metric then (p.1, dictInsert p.2 run s) else p)
  else
    acc ++ [(metric, [(run, s)])]

/-- The body of the per-run loop of `get_data` (backend.py lines 658 to
675): a run absent from the cache, or whose scalars mapping is empty
(Python falsiness of `run_scalars_from_cache` at line 662), contributes
nothing; otherwise each of its series with a non-empty steps list is
added under its tag. -/
def serveRun (cache : List (String × RunEntry))
    (acc : List (String × List (String × ScalarSeries))) (run : String) :
    List (String × List (String × ScalarSeries)) :=
  match alookup cache run with
  | none => acc
  | some e =>
      if e.scalars.isEmpty then acc
      else
        e.scalars.foldl
          (fun a p => if p.2.steps.isEmpty then a else addMetricEntry a p.1 run p.2)
          acc

/-- The tag-to-run-to-series mapping assembled by `get_data` for a list
of selected run names. -/
def assembleData (cache : List (String × RunEntry)) (selected : List String) :
    List (String × List (String × ScalarSeries)) :=
  selected.foldl (serveRun cache) []

/-- Function `get_data` (backend.py lines 640 to 691): an empty `runs` query
string is a client error (lines 643 to 644); otherwise the string is
split on commas and the mapping assembled from the cache (an empty
mapping is returned as `{}` at line 689, which coincides with the
assembled empty mapping). -/
def get_data (cache : List (String × RunEntry)) (runsStr : String) :
    Except String (List (String × List (String × ScalarSeries))) :=
  if runsStr == "" then .error "No runs specified"
  else .ok (assembleData cache (strSplitOn runsStr ','))

/-! ## Refresh trigger (backend.py lines 615 to 635) -/

/-- The state relevant to `/api/refresh`: the published cache and how
many builder invocations have been started so far. -/
structure SchedulerState where
  cache : List (String × RunEntry)
  buildsStarted : Nat
deriving DecidableEq

/-- Function `trigger_refresh_and_return_cached_runs` (backend.py lines 615 to
635): the handler snapshots the current cache and returns its run list
(lines 619 to 620), and unconditionally starts a fresh builder thread
(lines 631 to 632) — there is no in-progress flag, lock, or any other
guard consulted before `refresh_thread.start()`, so starting a builder
is modelled as incrementing the count of started builder invocations
regardless of the current state.  The handler itself does not change
the published cache (only a completing builder does, at line 495). -/
def trigger_refresh_and_return_cached_runs (s : SchedulerState) :
    List RunInfo × SchedulerState :=
  (get_runs_info_from_cache s.cache,
   { s with buildsStarted := s.buildsStarted + 1 })

/-! ## Concrete instances used to exercise the model -/

/-- A correlator that never finds anything. -/
def ovNone : String → Option String := fun _ => none

/-- A valid log root with no metadata roots configured. -/
def baseCfg : Config := ⟨true, false, false, []⟩

/-- A valid log root where only the single-run metadata root is
configured and the log root has one subdirectory `runX`. -/
def fallbackCfg : Config := ⟨true, false, true, ["runX"]⟩

/-- A non-empty previously published cache. -/
def prevCache : List (String × RunEntry) :=
  [("r", ⟨[("loss", ⟨[0], [1], [FVal.fin 2]⟩)], none, none⟩)]

/-- Two hyperparameter events for run `r`, both setting `lr`: the
earlier (wall_time 1) to `0.1`, the later (wall_time 2) to `0.2`. -/
def hparamTwoEvents : List HparamRow :=
  [⟨"r/ts1", some "lr", "0.1", 1⟩, ⟨"r/ts2", some "lr", "0.2", 2⟩]

/-- One scalar record whose wall_time is positive infinity (step and
value finite). -/
def infWallInput : RawInput := ⟨[⟨"r", "loss", .fin 0, .fin 1, .inf⟩], []⟩

/-- A run whose only data is a single NaN-valued scalar record. -/
def nanOnlyInput : RawInput := ⟨[⟨"r", "loss", .fin 0, .nan, .fin 1⟩], []⟩

/-- A run with one tag whose records arrive with out-of-order steps. -/
def unsortedStepsInput : RawInput :=
  ⟨[⟨"r", "loss", .fin 3, .fin 1, .fin 0⟩, ⟨"r", "loss", .fin 1, .fin 2, .fin 0⟩], []⟩

/-- A NaN-only run `r` next to a run `s` with one finite record. -/
def mixedNanInput : RawInput :=
  ⟨[⟨"r", "loss", .fin 0, .nan, .fin 1⟩, ⟨"s", "loss", .fin 0, .fin 1, .fin 2⟩], []⟩

/-- A single fully finite scalar record. -/
def finiteInput : RawInput := ⟨[⟨"r", "loss", .fin 1, .fin 2, .fin 3⟩], []⟩

/-- A cache holding one run with scalar data. -/
def oneRunCache : List (String × RunEntry) :=
  [("known", ⟨[("loss", ⟨[0, 1], [1, 2], [.fin 0, .fin 1]⟩)], none, none⟩)]

/-- An entry with hparams but an empty scalars mapping. -/
def hparamsOnlyEntry : RunEntry := ⟨[], none, some ⟨[("lr", "1")], []⟩⟩

/-- A cache holding the hparams-only run `r` next to a run with
scalar data. -/
def mixedCache : List (String × RunEntry) :=
  [("r", hparamsOnlyEntry),
   ("known", ⟨[("loss", ⟨[0, 1], [1, 2], [.fin 0, .fin 1]⟩)], none, none⟩)]

/-! ## Helper lemmas about the builder -/

theorem mem_cleanScalarRows {row : ScalarRow} {rows : List ScalarRow}
    (h : row ∈ cleanScalarRows rows) :
    row ∈ rows ∧ isNan row.step = false ∧ isNan row.value = false ∧
      isNan row.wallTime = false ∧ row.value ≠ FVal.inf ∧ row.value ≠ FVal.ninf := by
  unfold cleanScalarRows at h
  rw [List.mem_filter] at h
  obtain ⟨h1, h2⟩ := h
  rw [List.mem_filter] at h1
  obtain ⟨hmem, h3⟩ := h1
  simp only [Bool.not_eq_true', Bool.or_eq_false_iff, beq_eq_false_iff_ne] at h2 h3
  exact ⟨hmem, h3.1.1, h3.1.2, h3.2, h2.1, h2.2⟩

theorem castRow_some {row : ScalarRow} {crow : CleanRow}
    (h : castRow row = some crow) :
    crow.dirName = row.dirName ∧ crow.tag = row.tag ∧ crow.wallTime = row.wallTime := by
  unfold castRow at h
  cases hs : row.step <;> cases hv : row.value <;> rw [hs, hv] at h <;>
    first
      | exact Option.noConfusion h
      | (cases Option.some.inj h; exact ⟨rfl, rfl, rfl⟩)

theorem castRows_ok {rows : List ScalarRow} {out : List CleanRow}
    (h : castRows rows = .ok out) : out = rows.filterMap castRow := by
  unfold castRows at h
  split at h
  · exact (Except.ok.inj h).symm
  · exact Except.noConfusion h

theorem mem_castRows_ok {rows : List ScalarRow} {out : List CleanRow} {crow : CleanRow}
    (h : castRows rows = .ok out) (hc : crow ∈ out) :
    ∃ row ∈ rows, castRow row = some crow := by
  rw [castRows_ok h] at hc
  exact List.mem_filterMap.mp hc

theorem mem_snapshot {input : RawInput} {cfg : Config}
    {ovM ovS : String → Option String} {snap : List (String × RunEntry)}
    {r : String} {e : RunEntry}
    (hok : buildSnapshot input cfg ovM ovS = .ok snap) (h : (r, e) ∈ snap) :
    ∃ rows, castRows (cleanScalarRows input.scalarRows) = .ok rows ∧
      e = buildRunEntry r rows input.hparamRows (runOverrides cfg ovM ovS r) ∧
      keepRun e = true := by
  unfold buildSnapshot at hok
  cases hcast : castRows (cleanScalarRows input.scalarRows) with
  | error u => rw [hcast] at hok; exact Except.noConfusion hok
  | ok rows =>
      rw [hcast] at hok
      have hsnap := Except.ok.inj hok
      rw [← hsnap] at h
      rw [List.mem_filter] at h
      obtain ⟨hmem, hkeep⟩ := h
      obtain ⟨a, _, heq⟩ := List.mem_map.mp hmem
      rw [Prod.mk.injEq] at heq
      obtain ⟨rfl, rfl⟩ := heq
      exact ⟨rows, rfl, rfl, hkeep⟩

theorem mem_buildRunScalars {r : String} {rows : List CleanRow}
    {t : String} {s : ScalarSeries} (h : (t, s) ∈ buildRunScalars r rows) :
    s = seriesForTag ((rowsForRun r rows).filter (fun x => x.tag == t)) := by
  unfold buildRunScalars at h
  obtain ⟨a, _, heq⟩ := List.mem_map.mp h
  rw [Prod.mk.injEq] at heq
  obtain ⟨rfl, rfl⟩ := heq
  rfl

theorem wallTime_mem_series {l : List CleanRow} {w : FVal}
    (h : w ∈ (seriesForTag l).wallTimes) :
    ∃ crow ∈ l, crow.wallTime = w := by
  unfold seriesForTag sortRowsByStep at h
  obtain ⟨crow, hc, heq⟩ := List.mem_map.mp h
  exact ⟨crow, (List.mem_insertionSort _).mp hc, heq⟩

theorem rowsForRun_nil {r : String} {rows : List CleanRow}
    (h : ∀ crow ∈ rows, crow.dirName ≠ r) : rowsForRun r rows = [] := by
  unfold rowsForRun
  rw [List.filter_eq_nil_iff]
  intro a ha
  simp [h a ha]

theorem buildRunScalars_nil {r : String} {rows : List CleanRow}
    (h : rowsForRun r rows = []) : buildRunScalars r rows = [] := by
  unfold buildRunScalars
  rw [h]
  rfl

theorem hparamRowsFor_nil {r : String} {rows : List HparamRow}
    (h : ∀ row ∈ rows, firstSegment row.dirName ≠ r) :
    hparamRowsFor r rows = [] := by
  unfold hparamRowsFor
  rw [List.filter_eq_nil_iff]
  intro a ha
  have hmem := (List.mem_insertionSort _).mp ha
  simp [h a hmem]

/-! ## The step order on cleaned rows, for the sortedness proof -/

instance : IsTotal CleanRow (fun a b => a.step ≤ b.step) :=
  ⟨fun a b => Int.le_total a.step b.step⟩

instance : IsTrans CleanRow (fun a b => a.step ≤ b.step) :=
  ⟨fun _ _ _ hab hbc => le_trans hab hbc⟩

/-! ## Claim theorems: builder invariants -/

/-- C5: every RunEntry present in a published snapshot has at least one
non-empty piece of data among scalars, hparams, or overrides (first
conjunct); and a run whose scalar records all have NaN values, with no
hyperparameter rows and no correlated overrides, is absent from the
published snapshot (second conjunct, covering the NaN-only run of the
claim). -/
theorem published_entries_have_data
    (input : RawInput) (cfg : Config) (ovM ovS : String → Option String)
    (snap : List (String × RunEntry))
    (hok : buildSnapshot input cfg ovM ovS = .ok snap) :
    (∀ r e, (r, e) ∈ snap →
        e.scalars ≠ [] ∨
          (∃ h, e.hparams = some h ∧ h.hparamDict ≠ []) ∨
          e.hydraOverrides.isSome = true) ∧
    (∀ r, (∀ row ∈ input.scalarRows, row.dirName = r → isNan row.value = true) →
        (∀ row ∈ input.hparamRows, firstSegment row.dirName ≠ r) →
        runOverrides cfg ovM ovS r = none →
        ∀ e, (r, e) ∉ snap) := by
  constructor
  · intro r e he
    obtain ⟨rows, hcast, rfl, hkeep⟩ := mem_snapshot hok he
    unfold keepRun at hkeep
    simp only [Bool.or_eq_true] at hkeep
    rcases hkeep with (hs | hh) | ho
    · left
      simp only [Bool.not_eq_true'] at hs
      exact fun hnil => by simp [hnil] at hs
    · right; left
      cases hhp : (buildRunEntry r rows input.hparamRows
          (runOverrides cfg ovM ovS r)).hparams with
      | none => rw [hhp] at hh; exact absurd hh (by simp)
      | some hv =>
          rw [hhp] at hh
          simp only [Bool.not_eq_true'] at hh
          exact ⟨hv, rfl, fun hnil => by simp [hnil] at hh⟩
    · right; right; exact ho
  · intro r hvals hhp hov e he
    obtain ⟨rows, hcast, heq, hkeep⟩ := mem_snapshot hok he
    have hscal : buildRunScalars r rows = [] := by
      apply buildRunScalars_nil
      apply rowsForRun_nil
      intro crow hcrow hdir
      obtain ⟨row, hrow, hcast2⟩ := mem_castRows_ok hcast hcrow
      obtain ⟨hd, _, _⟩ := castRow_some hcast2
      obtain ⟨hmem, _, hvnan, _, _, _⟩ := mem_cleanScalarRows hrow
      have := hvals row hmem (by rw [← hd, hdir])
      rw [this] at hvnan
      exact Bool.noConfusion hvnan
    have hhp2 : buildRunHparams (hparamRowsFor r input.hparamRows) = none := by
      rw [hparamRowsFor_nil hhp]
      rfl
    rw [heq] at hkeep
    unfold keepRun buildRunEntry at hkeep
    simp only [hscal, hhp2, hov] at hkeep
    exact Bool.noConfusion hkeep

/-- C6: for every ScalarSeries in every published snapshot the steps
list is non-decreasing: within each run the records are grouped by tag
and each tag group is sorted by step ascending before being stored. -/
theorem published_series_steps_sorted
    (input : RawInput) (cfg : Config) (ovM ovS : String → Option String)
    (snap : List (String × RunEntry))
    (hok : buildSnapshot input cfg ovM ovS = .ok snap) :
    ∀ r e, (r, e) ∈ snap → ∀ t s, (t, s) ∈ e.scalars →
      List.Sorted (· ≤ ·) s.steps := by
  intro r e he t s hs
  obtain ⟨rows, hcast, rfl, _⟩ := mem_snapshot hok he
  have hser := mem_buildRunScalars hs
  subst hser
  unfold seriesForTag sortRowsByStep
  have hsorted := List.sorted_insertionSort (fun a b : CleanRow => a.step ≤ b.step)
    ((rowsForRun r rows).filter (fun x => x.tag == t))
  have hp : List.Pairwise (fun (a b : Int) => a ≤ b)
      ((List.insertionSort (fun a b : CleanRow => a.step ≤ b.step)
          ((rowsForRun r rows).filter (fun x => x.tag == t))).map
        (fun x => x.step)) :=
    List.Pairwise.map (fun x : CleanRow => x.step) (fun a b h => h) hsorted
  exact hp

/-- C4, amended: in every published snapshot, every series value is a
finite rational and every step a finite integer by construction (a
surviving non-finite step makes the astype cast raise and the refresh
fail instead), and every wall_time is non-NaN; wall_times are however
not guaranteed finite, since the infinity filter of the cleaning step
applies only to the value column. -/
theorem published_series_no_nan
    (input : RawInput) (cfg : Config) (ovM ovS : String → Option String)
    (snap : List (String × RunEntry))
    (hok : buildSnapshot input cfg ovM ovS = .ok snap) :
    ∀ r e, (r, e) ∈ snap → ∀ t s, (t, s) ∈ e.scalars →
      ∀ w ∈ s.wallTimes, isNan w = false := by
  intro r e he t s hs w hw
  obtain ⟨rows, hcast, rfl, _⟩ := mem_snapshot hok he
  have hser := mem_buildRunScalars hs
  subst hser
  obtain ⟨crow, hcl, rfl⟩ := wallTime_mem_series hw
  have hcrow : crow ∈ rows := (List.mem_filter.mp (List.mem_filter.mp hcl).1).1
  obtain ⟨row, hrow, hcast2⟩ := mem_castRows_ok hcast hcrow
  obtain ⟨_, _, hwt⟩ := castRow_some hcast2
  rw [hwt]
  exact (mem_cleanScalarRows hrow).2.2.2.1

/-- C5 witness: on the concrete mixed input, the retained run `s` has
non-empty data, and the NaN-only run `r` is absent from the published
snapshot. -/
theorem published_entries_have_data_witness :
    ((⟨[("loss", ⟨[0], [1], [FVal.fin 2]⟩)], none, none⟩ : RunEntry).scalars ≠ [] ∨
      (∃ h, (⟨[("loss", ⟨[0], [1], [FVal.fin 2]⟩)], none, none⟩ : RunEntry).hparams =
          some h ∧ h.hparamDict ≠ []) ∨
      (⟨[("loss", ⟨[0], [1], [FVal.fin 2]⟩)], none, none⟩ : RunEntry).hydraOverrides.isSome
        = true) ∧
    ("r", (⟨[], none, none⟩ : RunEntry)) ∉
      [(("s" : String),
        (⟨[("loss", ⟨[0], [1], [FVal.fin 2]⟩)], none, none⟩ : RunEntry))] := by
  have h := published_entries_have_data mixedNanInput baseCfg ovNone ovNone
    [("s", ⟨[("loss", ⟨[0], [1], [FVal.fin 2]⟩)], none, none⟩)] (by decide)
  exact ⟨h.1 "s" _ (by decide), h.2 "r" (by decide) (by decide) (by decide) _⟩

/-- C6 witness: on the concrete out-of-order input, the published
series for tag `loss` of run `r` has non-decreasing steps. -/
theorem published_series_steps_sorted_witness :
    List.Sorted (· ≤ ·)
      ((⟨[1, 3], [2, 1], [FVal.fin 0, FVal.fin 0]⟩ : ScalarSeries).steps) :=
  published_series_steps_sorted unsortedStepsInput baseCfg ovNone ovNone
    [("r", ⟨[("loss", ⟨[1, 3], [2, 1], [FVal.fin 0, FVal.fin 0]⟩)], none, none⟩)]
    (by decide) "r"
    ⟨[("loss", ⟨[1, 3], [2, 1], [FVal.fin 0, FVal.fin 0]⟩)], none, none⟩
    (by decide) "loss" ⟨[1, 3], [2, 1], [FVal.fin 0, FVal.fin 0]⟩ (by decide)

/-- C4 amended witness: on the concrete finite input, the published
wall_time entry of the series for run `r` is non-NaN. -/
theorem published_series_no_nan_witness : isNan (FVal.fin 3) = false :=
  published_series_no_nan finiteInput baseCfg ovNone ovNone
    [("r", ⟨[("loss", ⟨[1], [2], [FVal.fin 3]⟩)], none, none⟩)] (by decide) "r"
    ⟨[("loss", ⟨[1], [2], [FVal.fin 3]⟩)], none, none⟩ (by decide) "loss"
    ⟨[1], [2], [FVal.fin 3]⟩ (by decide) (FVal.fin 3) (by decide)

/-- C4 is refuted as stated: a scalar record whose wall_time is
positive infinity (step and value finite) survives cleaning, because
the infinity filter of backend.py line 377 checks only the value
column, and the published series for run `r` then carries an infinite
wall_time entry. -/
theorem infinite_wall_time_published :
    buildSnapshot infWallInput baseCfg ovNone ovNone =
      .ok [("r", ⟨[("loss", ⟨[0], [1], [FVal.inf]⟩)], none, none⟩)] ∧
    isInfinite FVal.inf = true := by decide

/-! ## Claim theorems: refresh failure behaviour -/

/-- C1, amended: if the log source raises, or the log root is invalid,
the refresh aborts and the previously published snapshot remains
published unchanged; but when the read succeeds and no run data can be
discovered at all, the refresh publishes the empty cache (backend.py
lines 342 to 347 clear RUN_DATA_CACHE) rather than keeping the
previous snapshot. -/
theorem preload_stale_on_raise_cleared_on_empty
    (prev : List (String × RunEntry)) (cfg : Config)
    (ovM ovS : String → Option String) :
    (preload_all_runs_unified prev cfg (.error ()) ovM ovS = prev) ∧
    (cfg.logRootValid = true → ∀ input, candidateNames input cfg = [] →
      preload_all_runs_unified prev cfg (.ok input) ovM ovS = []) := by
  constructor
  · cases h : cfg.logRootValid <;> simp [preload_all_runs_unified, h]
  · intro hv input hnames
    simp [preload_all_runs_unified, hv, hnames]

/-- C1 witness: with the concrete non-empty previous cache, a raising
read keeps the previous cache; a successful read discovering nothing
publishes the empty cache. -/
theorem preload_stale_on_raise_cleared_on_empty_witness :
    preload_all_runs_unified prevCache baseCfg (.error ()) ovNone ovNone = prevCache ∧
    preload_all_runs_unified prevCache baseCfg (.ok ⟨[], []⟩) ovNone ovNone = [] := by
  have h := preload_stale_on_raise_cleared_on_empty prevCache baseCfg ovNone ovNone
  exact ⟨h.1, h.2 (by decide) ⟨[], []⟩ (by decide)⟩

/-- C1 is refuted as stated: with a non-empty previously published
snapshot, a refresh whose read succeeds but discovers no run data at
all publishes the empty cache (backend.py line 344 sets
`RUN_DATA_CACHE = {}`), so the previous snapshot does not remain
published and the cache degrades to empty, not merely stale. -/
theorem preload_clears_cache_on_empty_discovery :
    preload_all_runs_unified prevCache baseCfg (.ok ⟨[], []⟩) ovNone ovNone = [] ∧
    prevCache ≠ [] ∧
    preload_all_runs_unified prevCache baseCfg (.ok ⟨[], []⟩) ovNone ovNone ≠ prevCache := by
  decide

/-! ## Claim theorems: refresh trigger -/

/-- C2, amended: each trigger_refresh call returns the run list of the
currently published snapshot, and the second of two calls within one
refresh cycle (no publish having happened in between) returns the same
still-current snapshot content as the first; but each call
unconditionally starts a fresh builder invocation, so overlapping
triggers do run the builder concurrently with itself. -/
theorem trigger_refresh_behavior (s : SchedulerState) :
    ((trigger_refresh_and_return_cached_runs s).2.buildsStarted =
      s.buildsStarted + 1) ∧
    ((trigger_refresh_and_return_cached_runs s).1 =
      get_runs_info_from_cache s.cache) ∧
    ((trigger_refresh_and_return_cached_runs
        (trigger_refresh_and_return_cached_runs s).2).1 =
      (trigger_refresh_and_return_cached_runs s).1) :=
  ⟨rfl, rfl, rfl⟩

/-- C2 is refuted as stated: starting from a state in which no builder
invocation has been started, two trigger_refresh calls with no publish
in between start two builder invocations (backend.py lines 631 to 632
start a new builder thread unconditionally, with no in-progress
guard), not one. -/
theorem double_trigger_starts_two_builds :
    ((trigger_refresh_and_return_cached_runs
        ((trigger_refresh_and_return_cached_runs
            (⟨[], 0⟩ : SchedulerState)).2)).2.buildsStarted = 2) ∧
    ¬((trigger_refresh_and_return_cached_runs
        ((trigger_refresh_and_return_cached_runs
            (⟨[], 0⟩ : SchedulerState)).2)).2.buildsStarted = 1) := by
  decide

/-! ## Claim theorems: hyperparameter collapsing -/

/-- C3 is contradicted by the code: for run `r` with two hyperparameter
events both setting `lr`, the earlier (wall_time 1) to `0.1` and the
later (wall_time 2) to `0.2`, the published hparam_dict holds `0.2`.
The rows are sorted ascending by wall_time and then every row of every
event is written into the dict in order (backend.py lines 429 to 434),
so for each tag the latest event wins, while the sort's own comment at
line 321 (pick the earliest hparam entry) and the claim say the
earliest event's rows are authoritative.  metric_dict is empty as
claimed. -/
theorem hparams_latest_event_wins :
    buildRunHparams (hparamRowsFor "r" hparamTwoEvents) =
      some ⟨[("lr", "0.2")], []⟩ ∧
    buildRunHparams (hparamRowsFor "r" hparamTwoEvents) ≠
      some ⟨[("lr", "0.1")], []⟩ := by
  decide

/-! ## Claim theorems: candidate run names -/

/-- C7 is refuted as stated: with no records found and only the
single-run metadata root configured, the fallback to the log root's
subdirectories is not applied (backend.py line 333 consults only
HYDRA_MULTIRUN_DIR), so `runX` is not a candidate even though a
metadata-correlation root is configured. -/
theorem single_run_root_no_fallback :
    candidateNames ⟨[], []⟩ fallbackCfg = [] ∧
    fallbackCfg.singleRunConfigured = true ∧
    fallbackCfg.logRootSubdirs = ["runX"] ∧
    "runX" ∉ candidateNames ⟨[], []⟩ fallbackCfg := by
  decide

/-- C7, amended: the candidate run names are the union of the distinct
run-directory values of the scalar records and the distinct
canonicalized run-directory values of the hyperparameter records; when
no records at all were found, the immediate subdirectory names of the
log root are used instead only if the multi-run metadata root is
configured — a configured single-run root alone does not enable the
fallback. -/
theorem candidate_names_characterization (input : RawInput) (cfg : Config) (x : String) :
    x ∈ candidateNames input cfg ↔
      (if input.scalarRows.isEmpty && input.hparamRows.isEmpty then
        cfg.multirunConfigured = true ∧ x ∈ cfg.logRootSubdirs
      else
        x ∈ scalarDirNames input.scalarRows ∨ x ∈ hparamBaseNames input.hparamRows) := by
  obtain ⟨srows, hrows⟩ := input
  by_cases hs : srows = []
  · by_cases hh : hrows = []
    · subst hs; subst hh
      cases hm : cfg.multirunConfigured <;>
        simp [candidateNames, scalarDirNames, hparamBaseNames, hm]
    · have hb : hparamBaseNames hrows ≠ [] := by
        simp [hparamBaseNames, List.dedup_eq_nil, List.map_eq_nil_iff, hh]
      have hbase : ((scalarDirNames srows ++ hparamBaseNames hrows).dedup) ≠ [] := by
        simp [List.dedup_eq_nil, List.append_eq_nil, hb]
      have hemp : ((scalarDirNames srows ++ hparamBaseNames hrows).dedup).isEmpty = false := by
        rw [Bool.eq_false_iff]
        intro hc
        exact hbase (List.isEmpty_iff.mp hc)
      have hrows_emp : hrows.isEmpty = false := by
        rw [Bool.eq_false_iff]
        intro hc
        exact hh (List.isEmpty_iff.mp hc)
      simp [candidateNames, hemp, hrows_emp, List.mem_dedup, List.mem_append]
  · have hb : scalarDirNames srows ≠ [] := by
      simp [scalarDirNames, List.dedup_eq_nil, List.map_eq_nil_iff, hs]
    have hbase : ((scalarDirNames srows ++ hparamBaseNames hrows).dedup) ≠ [] := by
      simp [List.dedup_eq_nil, List.append_eq_nil, hb]
    have hemp : ((scalarDirNames srows ++ hparamBaseNames hrows).dedup).isEmpty = false := by
      rw [Bool.eq_false_iff]
      intro hc
      exact hbase (List.isEmpty_iff.mp hc)
    have hs_emp : srows.isEmpty = false := by
      rw [Bool.eq_false_iff]
      intro hc
      exact hs (List.isEmpty_iff.mp hc)
    simp [candidateNames, hemp, hs_emp, List.mem_dedup, List.mem_append]

/-! ## Claim theorems: single-run correlation -/

theorem searchJobDirs_eq (term : String) (jobs : List HydraJobDir) :
    searchJobDirs term jobs =
      (jobs.find? (logMatches term)).map hydraConfigChoice := by
  induction jobs with
  | nil => rfl
  | cons d rest ih =>
      unfold searchJobDirs
      by_cases h : logMatches term d = true
      · simp [List.find?_cons, h]
      · simp only [Bool.not_eq_true] at h
        simp [List.find?_cons, h, ih]

theorem searchDateDirs_eq (term : String) (dates : List (List HydraJobDir)) :
    searchDateDirs term dates =
      ((dates.flatMap (fun d => d)).find? (logMatches term)).map hydraConfigChoice := by
  induction dates with
  | nil => rfl
  | cons ds rest ih =>
      unfold searchDateDirs
      rw [searchJobDirs_eq, List.flatMap_cons, List.find?_append]
      cases hf : ds.find? (logMatches term) with
      | none => simp [ih]
      | some d => simp

/-- C9: the single-run correlation is fully determined by the first
time-directory (in date order, then time order) whose log files contain
the run name as a substring: on such a match the result is the
overrides.yaml content if that file exists, else the config.yaml
content if that exists, else absent — and in every case no further
time-directories influence the result; with no match anywhere the
result is absent. -/
theorem single_run_override_first_match (term : String) (dates : List (List HydraJobDir)) :
    find_hydra_overrides_single_run term dates =
      match (dates.flatMap (fun d => d)).find? (logMatches term) with
      | none => none
      | some d => hydraConfigChoice d := by
  unfold find_hydra_overrides_single_run
  rw [searchDateDirs_eq]
  cases (dates.flatMap (fun d => d)).find? (logMatches term) <;> rfl

/-! ## Claim theorems: scalar query service -/

theorem mem_dictInsert {α : Type} {d : List (String × α)} {k : String} {v : α}
    {r : String} {x : α} (h : (r, x) ∈ dictInsert d k v) :
    (r, x) ∈ d ∨ r = k := by
  unfold dictInsert at h
  split at h
  · obtain ⟨p, hp, heq⟩ := List.mem_map.mp h
    by_cases hk : (p.1 == k) = true
    · rw [if_pos hk] at heq
      rw [Prod.mk.injEq] at heq
      right
      rw [← heq.1]
      exact beq_iff_eq.mp hk
    · rw [if_neg hk] at heq
      left
      rw [← heq]
      exact hp
  · rcases List.mem_append.mp h with hl | hr
    · exact Or.inl hl
    · right
      have := List.mem_singleton.mp hr
      rw [Prod.mk.injEq] at this
      exact this.1.symm ▸ rfl

theorem mem_addMetricEntry {acc : List (String × List (String × ScalarSeries))}
    {m run : String} {s : ScalarSeries} {t : String}
    {rm : List (String × ScalarSeries)} {r : String} {x : ScalarSeries}
    (ht : (t, rm) ∈ addMetricEntry acc m run s) (hr : (r, x) ∈ rm) :
    (∃ rm2, (t, rm2) ∈ acc ∧ (r, x) ∈ rm2) ∨ r = run := by
  unfold addMetricEntry at ht
  split at ht
  · obtain ⟨p, hp, heq⟩ := List.mem_map.mp ht
    by_cases hk : (p.1 == m) = true
    · rw [if_pos hk] at heq
      rw [Prod.mk.injEq] at heq
      obtain ⟨h1, h2⟩ := heq
      rcases mem_dictInsert (h2 ▸ hr) with hold | hrun
      · exact Or.inl ⟨p.2, by rw [← h1]; exact hp, hold⟩
      · exact Or.inr hrun
    · rw [if_neg hk] at heq
      exact Or.inl ⟨rm, heq ▸ hp, hr⟩
  · rcases List.mem_append.mp ht with hl | hr2
    · exact Or.inl ⟨rm, hl, hr⟩
    · have := List.mem_singleton.mp hr2
      rw [Prod.mk.injEq] at this
      right
      have hrm := this.2
      rw [hrm] at hr
      have := List.mem_singleton.mp hr
      rw [Prod.mk.injEq] at this
      exact this.1

theorem foldl_serve_good {cache : List (String × RunEntry)} {run : String}
    (hrun : (alookup cache run).isSome = true) :
    ∀ (scal : List (String × ScalarSeries))
      (acc : List (String × List (String × ScalarSeries))),
      (∀ t rm, (t, rm) ∈ acc → ∀ r x, (r, x) ∈ rm → (alookup cache r).isSome = true) →
      ∀ t rm, (t, rm) ∈ scal.foldl
          (fun a p => if p.2.steps.isEmpty then a else addMetricEntry a p.1 run p.2) acc →
        ∀ r x, (r, x) ∈ rm → (alookup cache r).isSome = true := by
  intro scal
  induction scal with
  | nil => intro acc hacc; exact hacc
  | cons p rest ih =>
      intro acc hacc
      rw [List.foldl_cons]
      apply ih
      intro t rm htm r x hrx
      by_cases hst : p.2.steps.isEmpty = true
      · rw [if_pos hst] at htm
        exact hacc t rm htm r x hrx
      · rw [if_neg hst] at htm
        rcases mem_addMetricEntry htm hrx with ⟨rm2, hmem, hin⟩ | rfl
        · exact hacc t rm2 hmem r x hin
        · exact hrun

theorem serveRun_eq_none {cache : List (String × RunEntry)}
    {acc : List (String × List (String × ScalarSeries))} {run : String}
    (h : alookup cache run = none) : serveRun cache acc run = acc := by
  unfold serveRun
  rw [h]

theorem serveRun_eq_some {cache : List (String × RunEntry)}
    {acc : List (String × List (String × ScalarSeries))} {run : String} {e : RunEntry}
    (h : alookup cache run = some e) :
    serveRun cache acc run =
      if e.scalars.isEmpty then acc
      else e.scalars.foldl
        (fun a p => if p.2.steps.isEmpty then a else addMetricEntry a p.1 run p.2) acc := by
  unfold serveRun
  rw [h]

theorem serveRun_good {cache : List (String × RunEntry)}
    {acc : List (String × List (String × ScalarSeries))} (run : String)
    (hacc : ∀ t rm, (t, rm) ∈ acc → ∀ r x, (r, x) ∈ rm → (alookup cache r).isSome = true) :
    ∀ t rm, (t, rm) ∈ serveRun cache acc run → ∀ r x, (r, x) ∈ rm →
      (alookup cache r).isSome = true := by
  intro t rm htm r x hrx
  cases hl : alookup cache run with
  | none =>
      rw [serveRun_eq_none hl] at htm
      exact hacc t rm htm r x hrx
  | some e =>
      rw [serveRun_eq_some hl] at htm
      by_cases he : e.scalars.isEmpty = true
      · rw [if_pos he] at htm
        exact hacc t rm htm r x hrx
      · rw [if_neg he] at htm
        exact foldl_serve_good (by rw [hl]; rfl) e.scalars acc hacc t rm htm r x hrx

theorem assembleData_good (cache : List (String × RunEntry)) (sel : List String) :
    ∀ t rm, (t, rm) ∈ assembleData cache sel → ∀ r x, (r, x) ∈ rm →
      (alookup cache r).isSome = true := by
  unfold assembleData
  have aux : ∀ (l : List String) (acc : List (String × List (String × ScalarSeries))),
      (∀ t rm, (t, rm) ∈ acc → ∀ r x, (r, x) ∈ rm → (alookup cache r).isSome = true) →
      ∀ t rm, (t, rm) ∈ l.foldl (serveRun cache) acc → ∀ r x, (r, x) ∈ rm →
        (alookup cache r).isSome = true := by
    intro l
    induction l with
    | nil => intro acc hacc; exact hacc
    | cons a rest ih =>
        intro acc hacc
        rw [List.foldl_cons]
        exact ih _ (serveRun_good a hacc)
  exact aux sel [] (by intro t rm htm; exact absurd htm (List.not_mem_nil _))

theorem assembleData_unknown {cache : List (String × RunEntry)} {sel : List String}
    (h : ∀ r ∈ sel, alookup cache r = none) : assembleData cache sel = [] := by
  unfold assembleData
  have aux : ∀ (l : List String), (∀ r ∈ l, alookup cache r = none) →
      ∀ acc, l.foldl (serveRun cache) acc = acc := by
    intro l
    induction l with
    | nil => intro _ acc; rfl
    | cons a rest ih =>
        intro hl acc
        rw [List.foldl_cons, serveRun_eq_none (hl a (List.mem_cons_self a rest))]
        exact ih (fun r hr => hl r (List.mem_cons_of_mem a hr)) acc
  exact aux sel h []

/-- C8: get_data with an empty runs query is rejected as a client
error; with a non-empty query the result is always an ok mapping in
which every run name appearing in any inner mapping is present in the
cache, so unknown run names are silently omitted rather than raising;
and a request naming only unknown runs returns the empty mapping. -/
theorem get_data_spec (cache : List (String × RunEntry)) (s : String) (hs : s ≠ "") :
    (get_data cache "" = .error "No runs specified") ∧
    (∃ m, get_data cache s = .ok m ∧
      ∀ t rm, (t, rm) ∈ m → ∀ r x, (r, x) ∈ rm → (alookup cache r).isSome = true) ∧
    ((∀ r ∈ strSplitOn s ',', alookup cache r = none) → get_data cache s = .ok []) := by
  have hbe : ¬((s == "") = true) := by
    rw [beq_iff_eq]
    exact hs
  refine ⟨rfl, ⟨assembleData cache (strSplitOn s ','), ?_, ?_⟩, ?_⟩
  · unfold get_data
    rw [if_neg hbe]
  · exact assembleData_good cache (strSplitOn s ',')
  · intro hall
    unfold get_data
    rw [if_neg hbe, assembleData_unknown hall]

/-- C8 witness: on the concrete one-run cache, the empty query is a
client error and a query naming only the unknown run `missing_run`
returns the empty mapping. -/
theorem get_data_spec_witness :
    get_data oneRunCache "" = .error "No runs specified" ∧
    get_data oneRunCache "missing_run" = .ok [] := by
  have h := get_data_spec oneRunCache "missing_run" (by decide)
  exact ⟨h.1, h.2.2 (by decide)⟩



/-! ## Claim theorems: runs with no scalar data -/

theorem alookup_cons {α : Type} (p : String × α) (rest : List (String × α)) (k : String) :
    alookup (p :: rest) k = if p.1 == k then some p.2 else alookup rest k := rfl

theorem eraseKey_cons {α : Type} (p : String × α) (rest : List (String × α)) (k : String) :
    eraseKey (p :: rest) k =
      if p.1 == k then eraseKey rest k else p :: eraseKey rest k := by
  unfold eraseKey
  rw [List.filter_cons]
  by_cases h : (p.1 == k) = true
  · simp [h]
  · simp only [Bool.not_eq_true] at h
    simp [h]

theorem alookup_eraseKey_self {α : Type} (c : List (String × α)) (k : String) :
    alookup (eraseKey c k) k = none := by
  induction c with
  | nil => rfl
  | cons p rest ih =>
      rw [eraseKey_cons]
      by_cases h : (p.1 == k) = true
      · rw [if_pos h]
        exact ih
      · rw [if_neg h, alookup_cons]
        rw [if_neg h]
        exact ih

theorem alookup_eraseKey_ne {α : Type} {c : List (String × α)} {k x : String}
    (h : x ≠ k) : alookup (eraseKey c k) x = alookup c x := by
  induction c with
  | nil => rfl
  | cons p rest ih =>
      rw [eraseKey_cons, alookup_cons]
      by_cases hp : (p.1 == k) = true
      · have hpx : (p.1 == x) = false := by
          rw [beq_eq_false_iff_ne]
          rw [beq_iff_eq] at hp
          rw [hp]
          exact fun hh => h hh.symm
        rw [if_pos hp, ih, hpx]
        simp
      · rw [if_neg hp, alookup_cons]
        by_cases hpx : (p.1 == x) = true
        · rw [hpx]
          simp
        · simp only [Bool.not_eq_true] at hpx
          rw [hpx]
          simp [ih]

theorem serveRun_erase {cache : List (String × RunEntry)} {r : String} {e : RunEntry}
    (h1 : alookup cache r = some e) (h2 : e.scalars = [])
    (acc : List (String × List (String × ScalarSeries))) (run : String) :
    serveRun cache acc run = serveRun (eraseKey cache r) acc run := by
  by_cases hr : run = r
  · subst hr
    rw [serveRun_eq_some h1, serveRun_eq_none (alookup_eraseKey_self cache run)]
    rw [if_pos]
    rw [h2]
    rfl
  · unfold serveRun
    rw [alookup_eraseKey_ne hr]

theorem alookup_mem_keys {α : Type} {c : List (String × α)} {k : String} {v : α}
    (h : alookup c k = some v) : k ∈ c.map (fun p => p.1) := by
  induction c with
  | nil => exact Option.noConfusion h
  | cons p rest ih =>
      rw [alookup_cons] at h
      by_cases hp : (p.1 == k) = true
      · rw [beq_iff_eq] at hp
        rw [List.map_cons, hp]
        exact List.mem_cons_self k _
      · rw [if_neg hp] at h
        exact List.mem_cons_of_mem _ (ih h)

theorem runs_info_names (cache : List (String × RunEntry)) :
    (get_runs_info_from_cache cache).map (fun i => i.name) = sortedKeys cache := by
  unfold get_runs_info_from_cache
  rw [List.map_map]
  have hcomp : ((fun i : RunInfo => i.name) ∘
      (fun n => match alookup cache n with
        | some e => (⟨n, truthy e.hydraOverrides, e.hparams.isSome⟩ : RunInfo)
        | none => ⟨n, false, false⟩)) = fun n => n := by
    funext n
    simp only [Function.comp_apply]
    cases alookup cache n <;> rfl
  rw [hcomp]
  exact List.map_id' (sortedKeys cache)

/-- C10: a run present in the published cache whose scalars mapping is
empty is omitted from the get_data result exactly like an unknown run
name — removing the run from the cache changes no assembled result for
any selection, so a get_data caller cannot distinguish the two — while
the runs listing still reports the run (its name is among the listed
names, where its has_overrides/has_hparams flags are exposed). -/
theorem empty_scalars_like_unknown (cache : List (String × RunEntry))
    (r : String) (e : RunEntry) (sel : List String)
    (h1 : alookup cache r = some e) (h2 : e.scalars = []) :
    assembleData cache sel = assembleData (eraseKey cache r) sel ∧
    r ∈ (get_runs_info_from_cache cache).map (fun i => i.name) := by
  constructor
  · unfold assembleData
    have aux : ∀ (l : List String) (acc : List (String × List (String × ScalarSeries))),
        l.foldl (serveRun cache) acc = l.foldl (serveRun (eraseKey cache r)) acc := by
      intro l
      induction l with
      | nil => intro acc; rfl
      | cons a rest ih =>
          intro acc
          rw [List.foldl_cons, List.foldl_cons, ← serveRun_erase h1 h2 acc a]
          exact ih _
    exact aux sel []
  · rw [runs_info_names]
    unfold sortedKeys
    exact (List.mem_insertionSort _).mpr (alookup_mem_keys h1)

/-- C10 witness: on the concrete mixed cache, serving the
hparams-only run `r` equals serving with `r` removed, and `r` is still
reported by the runs listing. -/
theorem empty_scalars_like_unknown_witness :
    (assembleData mixedCache ["r", "known"] =
      assembleData (eraseKey mixedCache "r") ["r", "known"]) ∧
    "r" ∈ (get_runs_info_from_cache mixedCache).map (fun i => i.name) :=
  empty_scalars_like_unknown mixedCache "r" hparamsOnlyEntry ["r", "known"]
    (by decide) (by decide)

end PBoard
